import Mathlib

/-!
Verification development for `src/tess_gaia_ps.py`, a single-file tool that
resolves a Gaia identifier to a TIC identifier, searches TESS light curves,
downloads and stitches them (with one retry plus corrupt-file cleanup per
item), and plots a Lomb-Scargle periodogram over the 50-2000 s period band.

The Python program is shallowly embedded below.  Astropy tables / lightkurve
LightCurve objects are modelled as `Table`: a time column plus an association
list of named data columns whose entries are `Option ℚ` (`none` models a NaN
sample; machine floats are modelled by exact rationals).  External
collaborators (the MAST catalog query, the search service, per-item
downloads, the TargetPixelFile `to_lightcurve` derivation) enter as
parameters, so each theorem quantifies over every behaviour the collaborator
may exhibit.
-/

namespace TGPS

/-- Positional row-mask application: keeps the entries of `xs` whose mask
bit is `true`.  This is how astropy boolean-mask row selection (used by
`remove_nans` and `remove_outliers`) acts on every column of a table. -/
def applyMask {α : Type} (keep : List Bool) (xs : List α) : List α :=
  (keep.zip xs).filterMap fun p => if p.1 then some p.2 else none

theorem applyMask_nil {α : Type} (keep : List Bool) :
    applyMask keep ([] : List α) = [] := by
  simp [applyMask]

theorem applyMask_cons {α : Type} (b : Bool) (keep : List Bool) (x : α) (xs : List α) :
    applyMask (b :: keep) (x :: xs)
      = if b then x :: applyMask keep xs else applyMask keep xs := by
  cases b <;> simp [applyMask]

/-- Row selection returns a subsequence of the original column. -/
theorem applyMask_sublist {α : Type} :
    ∀ (keep : List Bool) (xs : List α), List.Sublist (applyMask keep xs) xs := by
  intro keep
  induction keep with
  | nil =>
    intro xs
    have h0 : applyMask [] xs = [] := by simp [applyMask]
    rw [h0]
    exact List.nil_sublist xs
  | cons b ks ih =>
    intro xs
    cases xs with
    | nil => simp [applyMask]
    | cons x xs =>
      rw [applyMask_cons]
      cases b with
      | true => simpa using List.Sublist.cons₂ x (ih xs)
      | false => simpa using List.Sublist.cons x (ih xs)

/-- Selecting with the mask computed pointwise by a predicate is filtering. -/
theorem applyMask_map_pred {α : Type} (p : α → Bool) (xs : List α) :
    applyMask (xs.map p) xs = xs.filter p := by
  induction xs with
  | nil => simp [applyMask]
  | cons x xs ih =>
    simp only [List.map_cons, applyMask_cons, List.filter_cons]
    cases h : p x <;> simp [h, ih]

/-- The same mask applied to equally long columns keeps equally many rows. -/
theorem applyMask_length_eq {α β : Type} :
    ∀ (keep : List Bool) (xs : List α) (ys : List β), xs.length = ys.length →
      (applyMask keep xs).length = (applyMask keep ys).length := by
  intro keep
  induction keep with
  | nil => intro xs ys _; simp [applyMask]
  | cons b ks ih =>
    intro xs ys h
    cases xs with
    | nil =>
      cases ys with
      | nil => rfl
      | cons y ys => simp at h
    | cons x xs =>
      cases ys with
      | nil => simp at h
      | cons y ys =>
        simp only [List.length_cons, Nat.succ.injEq] at h
        rw [applyMask_cons, applyMask_cons]
        cases b <;> simp [ih xs ys h]

/-- Association-list lookup after overwriting every binding of key `n`. -/
theorem lookup_overwrite {β : Type} (n : String) (v : β) :
    ∀ l : List (String × β), n ∈ l.map Prod.fst →
      (l.map fun c => if c.1 = n then (n, v) else c).lookup n = some v := by
  intro l
  induction l with
  | nil => intro h; simp at h
  | cons c l ih =>
    obtain ⟨k, w⟩ := c
    intro h
    by_cases hc : k = n
    · rw [List.map_cons, if_pos hc]
      simp [List.lookup]
    · have hne : (n == k) = false := by
        simp only [beq_eq_false_iff_ne, ne_eq]
        intro hh; exact hc hh.symm
      rw [List.map_cons, if_neg hc]
      simp only [List.lookup, hne]
      apply ih
      simp only [List.map_cons, List.mem_cons] at h
      rcases h with h1 | h1
      · exact absurd h1.symm hc
      · exact h1

/-- Overwriting key `n` does not disturb lookups of a different key. -/
theorem lookup_overwrite_ne {β : Type} (n m : String) (v : β) (h : m ≠ n) :
    ∀ l : List (String × β),
      (l.map fun c => if c.1 = n then (n, v) else c).lookup m = l.lookup m := by
  intro l
  induction l with
  | nil => rfl
  | cons c l ih =>
    obtain ⟨k, w⟩ := c
    by_cases hc : k = n
    · have hne : (m == k) = false := by
        simp only [beq_eq_false_iff_ne, ne_eq]
        intro hh; rw [hc] at hh; exact h hh
      have hne2 : (m == n) = false := by simpa [hc] using hne
      rw [List.map_cons, if_pos hc]
      simp only [List.lookup, hne, hne2, ih]
    · rw [List.map_cons, if_neg hc]
      cases hm : (m == k) <;> simp only [List.lookup, hm, ih]

/-- Lookup in a list extended with a binding whose key is fresh. -/
theorem lookup_append_single {β : Type} (n : String) (v : β) :
    ∀ l : List (String × β), ¬ n ∈ l.map Prod.fst →
      (l ++ [(n, v)]).lookup n = some v := by
  intro l
  induction l with
  | nil => intro _; simp [List.lookup]
  | cons c l ih =>
    obtain ⟨k, w⟩ := c
    intro h
    have hk : ¬ n = k := by
      intro hh; exact h (by simp [hh])
    have hne : (n == k) = false := by simpa using hk
    have h2 : ¬ n ∈ l.map Prod.fst := by
      intro hh; exact h (by simp [hh])
    simp only [List.cons_append, List.lookup, hne]
    exact ih h2

theorem lookup_append_single_ne {β : Type} (n m : String) (v : β) (h : m ≠ n) :
    ∀ l : List (String × β), (l ++ [(n, v)]).lookup m = l.lookup m := by
  intro l
  have hne : (m == n) = false := by simpa using h
  induction l with
  | nil => simp [List.lookup, hne]
  | cons c l ih =>
    obtain ⟨k, w⟩ := c
    cases hm : (m == k) <;>
      simp only [List.cons_append, List.lookup, hm, ih, List.append_eq]

/-- Overwriting bindings in place leaves the key list unchanged. -/
theorem keys_overwrite {β : Type} (n : String) (v : β) :
    ∀ l : List (String × β),
      (l.map fun c => if c.1 = n then (n, v) else c).map Prod.fst
        = l.map Prod.fst := by
  intro l
  induction l with
  | nil => rfl
  | cons c l ih =>
    obtain ⟨k, w⟩ := c
    by_cases hc : k = n
    · rw [List.map_cons, if_pos hc]
      simp only [List.map_cons, ih, hc]
    · rw [List.map_cons, if_neg hc]
      simp only [List.map_cons, ih]

/-- Model of an astropy `QTable` / lightkurve `LightCurve`: a time column
(`lc.time`) together with named data columns.  A column entry `none` models
a NaN value. -/
structure Table where
  time : List ℚ
  cols : List (String × List (Option ℚ))
deriving DecidableEq

/-- The table's column names (`tbl.colnames`), in storage order. -/
def Table.colnames (t : Table) : List String := t.cols.map Prod.fst

/-- Reading a column (`tbl[name]`); first binding wins, a missing column
reads as the empty column. -/
def getCol (t : Table) (n : String) : List (Option ℚ) :=
  (t.cols.lookup n).getD []

/-- Writing a column (`tbl[name] = v`): overwrite in place when the name is
present, append a new column otherwise. -/
def setCol (t : Table) (n : String) (v : List (Option ℚ)) : Table :=
  if n ∈ t.colnames then
    ⟨t.time, t.cols.map fun c => if c.1 = n then (n, v) else c⟩
  else
    ⟨t.time, t.cols ++ [(n, v)]⟩

/-- Row-mask selection applied to a whole table (time and all columns). -/
def applyMaskTable (keep : List Bool) (t : Table) : Table :=
  ⟨applyMask keep t.time, t.cols.map fun c => (c.1, applyMask keep c.2)⟩

theorem lookup_map_snd {β γ : Type} (g : β → γ) (n : String) :
    ∀ l : List (String × β),
      (l.map fun c => (c.1, g c.2)).lookup n = (l.lookup n).map g := by
  intro l
  induction l with
  | nil => rfl
  | cons c l ih =>
    obtain ⟨k, w⟩ := c
    cases hc : (n == k) <;> simp only [List.map_cons, List.lookup, hc, ih, Option.map]

theorem getCol_applyMaskTable (keep : List Bool) (t : Table) (n : String) :
    getCol (applyMaskTable keep t) n = applyMask keep (getCol t n) := by
  unfold getCol applyMaskTable
  simp only [lookup_map_snd]
  cases h : t.cols.lookup n <;> simp [h, applyMask]

theorem time_applyMaskTable (keep : List Bool) (t : Table) :
    (applyMaskTable keep t).time = applyMask keep t.time := rfl

theorem colnames_applyMaskTable (keep : List Bool) (t : Table) :
    (applyMaskTable keep t).colnames = t.colnames := by
  simp [applyMaskTable, Table.colnames]

theorem time_setCol (t : Table) (n : String) (v : List (Option ℚ)) :
    (setCol t n v).time = t.time := by
  unfold setCol; split <;> rfl

theorem getCol_setCol_self (t : Table) (n : String) (v : List (Option ℚ)) :
    getCol (setCol t n v) n = v := by
  unfold setCol getCol
  split
  · next hmem =>
    rw [lookup_overwrite n v t.cols (by simpa [Table.colnames] using hmem)]
    rfl
  · next hmem =>
    rw [lookup_append_single n v t.cols (by simpa [Table.colnames] using hmem)]
    rfl

theorem getCol_setCol_ne (t : Table) (n m : String) (v : List (Option ℚ))
    (h : m ≠ n) : getCol (setCol t n v) m = getCol t m := by
  unfold setCol getCol
  split
  · rw [lookup_overwrite_ne n m v h]
  · rw [lookup_append_single_ne n m v h]

theorem mem_colnames_setCol (t : Table) (n m : String) (v : List (Option ℚ))
    (h : m ∈ t.colnames) : m ∈ (setCol t n v).colnames := by
  unfold setCol
  split
  · show m ∈ (t.cols.map fun c => if c.1 = n then (n, v) else c).map Prod.fst
    rw [keys_overwrite]
    exact h
  · show m ∈ (t.cols ++ [(n, v)]).map Prod.fst
    rw [List.map_append, List.mem_append]
    left; exact h

/-! ### Statistics used by the cleaning pipeline

`np.nanmedian`, `np.std` (population), and astropy's iterative
`sigma_clip` (median centre, std bounds, at most 5 iterations, strict
out-of-bounds rejection), as invoked by `remove_outliers(sigma=10)`.
Rational division models float division; the degenerate float cases
(median of an empty array, zero median) are represented by `0` rather
than NaN/inf, which no claim exercises. -/

/-- Insert into a sorted list (ascending). -/
def insertSorted (x : ℚ) : List ℚ → List ℚ
  | [] => [x]
  | y :: ys => if x ≤ y then x :: y :: ys else y :: insertSorted x ys

/-- Ascending sort, as `np.sort` does before taking the median. -/
def sortQ (xs : List ℚ) : List ℚ := xs.foldr insertSorted []

/-- Median: middle element, or mean of the two middles for even length. -/
def medianQ (xs : List ℚ) : ℚ :=
  let s := sortQ xs
  if s.length = 0 then 0
  else if s.length % 2 = 1 then s.getD (s.length / 2) 0
  else (s.getD (s.length / 2 - 1) 0 + s.getD (s.length / 2) 0) / 2

def meanQ (xs : List ℚ) : ℚ := xs.sum / (xs.length : ℚ)

/-- Population variance (`np.std(...)**2`, ddof = 0). -/
def varianceQ (xs : List ℚ) : ℚ :=
  if xs.length = 0 then 0
  else ((xs.map fun x => (x - meanQ xs) ^ 2).sum) / (xs.length : ℚ)

/-- Values currently unmasked. -/
def keptVals (vs : List ℚ) (mask : List Bool) : List ℚ :=
  (vs.zip mask).filterMap fun p => if p.2 then some p.1 else none

/-- One sigma-clipping iteration: recompute centre (median) and spread
(std) over the unmasked values, and reject the unmasked values lying
strictly outside centre plus or minus sigma times std.  The comparison
`(x - c)^2 <= sigma^2 * var` is the exact-arithmetic form of
`|x - c| <= sigma * std`. -/
def clipOnce (sigma : ℚ) (vs : List ℚ) (mask : List Bool) : List Bool :=
  let kept := keptVals vs mask
  let c := medianQ kept
  let bound := sigma ^ 2 * varianceQ kept
  (vs.zip mask).map fun p => p.2 && decide ((p.1 - c) ^ 2 ≤ bound)

/-- Iterate clipping until a fixed point, for at most the given number of
iterations (astropy default `maxiters = 5`). -/
def clipIter (sigma : ℚ) : ℕ → List ℚ → List Bool → List Bool
  | 0, _, mask => mask
  | k + 1, vs, mask =>
    let m2 := clipOnce sigma vs mask
    if m2 = mask then mask else clipIter sigma k vs m2

/-- The keep-mask `sigma_clip` produces on a flux column: NaN entries start
masked, then iterative clipping. -/
def sigmaClipKeep (sigma : ℚ) (xs : List (Option ℚ)) : List Bool :=
  clipIter sigma 5 (xs.map fun o => o.getD 0) (xs.map Option.isSome)

/-! ### The per-product cleaning pipeline
`lc.remove_nans().normalize(unit="ppm").remove_outliers(sigma=10)` -/

/-- `lc.remove_nans()`: drop the rows whose flux is NaN. -/
def removeNans (t : Table) : Table :=
  applyMaskTable ((getCol t "flux").map Option.isSome) t

/-- `lc.normalize(unit=...)`: divide flux (and flux_err when the column is
present) by the NaN-ignoring median flux; the `factor` is the unit
conversion of the resulting dimensionless values (`1000000` for ppm, `1`
for the default dimensionless unit). -/
def normalizeUnit (factor : ℚ) (t : Table) : Table :=
  let med := medianQ (getCol t "flux").reduceOption
  let t2 := setCol t "flux"
    ((getCol t "flux").map (Option.map fun x => x / med * factor))
  if "flux_err" ∈ t.colnames then
    setCol t2 "flux_err"
      ((getCol t "flux_err").map (Option.map fun x => x / med * factor))
  else t2

/-- `lc.remove_outliers(sigma=...)`: drop the rows rejected by sigma
clipping of the flux column. -/
def removeOutliers (sigma : ℚ) (t : Table) : Table :=
  applyMaskTable (sigmaClipKeep sigma (getCol t "flux")) t

/-- The common postlude of `_to_sap_lightcurve`. -/
def postClean (t : Table) : Table :=
  removeOutliers 10 (normalizeUnit 1000000 (removeNans t))

theorem reduceOption_filter_isSome {α : Type} :
    ∀ xs : List (Option α),
      (xs.filter fun o => o.isSome).reduceOption = xs.reduceOption := by
  intro xs
  induction xs with
  | nil => rfl
  | cons x xs ih =>
    cases x with
    | none => simpa [List.filter, List.reduceOption] using ih
    | some a => simpa [List.filter, List.reduceOption] using ih

theorem time_normalizeUnit (factor : ℚ) (t : Table) :
    (normalizeUnit factor t).time = t.time := by
  unfold normalizeUnit
  split <;> simp [time_setCol]

theorem getCol_normalizeUnit_flux (factor : ℚ) (t : Table) :
    getCol (normalizeUnit factor t) "flux"
      = (getCol t "flux").map
          (Option.map fun x =>
            x / medianQ (getCol t "flux").reduceOption * factor) := by
  unfold normalizeUnit
  split
  · rw [getCol_setCol_ne _ _ _ _ (by decide), getCol_setCol_self]
  · rw [getCol_setCol_self]

theorem getCol_normalizeUnit_other (factor : ℚ) (t : Table) (m : String)
    (h1 : m ≠ "flux") (h2 : m ≠ "flux_err") :
    getCol (normalizeUnit factor t) m = getCol t m := by
  unfold normalizeUnit
  split
  · rw [getCol_setCol_ne _ _ _ _ h2, getCol_setCol_ne _ _ _ _ h1]
  · rw [getCol_setCol_ne _ _ _ _ h1]

theorem mem_colnames_normalizeUnit (factor : ℚ) (t : Table) (m : String)
    (h : m ∈ t.colnames) : m ∈ (normalizeUnit factor t).colnames := by
  unfold normalizeUnit
  split
  · exact mem_colnames_setCol _ _ _ _ (mem_colnames_setCol _ _ _ _ h)
  · exact mem_colnames_setCol _ _ _ _ h

theorem getCol_postClean_flux (t : Table) :
    getCol (postClean t) "flux"
      = applyMask
          (sigmaClipKeep 10
            (((getCol t "flux").filter fun o => o.isSome).map
              (Option.map fun x =>
                x / medianQ (getCol t "flux").reduceOption * 1000000)))
          (((getCol t "flux").filter fun o => o.isSome).map
            (Option.map fun x =>
              x / medianQ (getCol t "flux").reduceOption * 1000000)) := by
  unfold postClean removeOutliers
  rw [getCol_applyMaskTable]
  rw [getCol_normalizeUnit_flux]
  unfold removeNans
  rw [getCol_applyMaskTable, applyMask_map_pred, reduceOption_filter_isSome]

theorem getCol_postClean_other_sublist (t : Table) (m : String)
    (h1 : m ≠ "flux") (h2 : m ≠ "flux_err") :
    List.Sublist (getCol (postClean t) m) (getCol t m) := by
  unfold postClean removeOutliers
  rw [getCol_applyMaskTable]
  refine List.Sublist.trans (applyMask_sublist _ _) ?h
  rw [getCol_normalizeUnit_other _ _ _ h1 h2]
  unfold removeNans
  rw [getCol_applyMaskTable]
  exact applyMask_sublist _ _

theorem mem_colnames_postClean (t : Table) (m : String)
    (h : m ∈ t.colnames) : m ∈ (postClean t).colnames := by
  unfold postClean removeOutliers removeNans
  rw [colnames_applyMaskTable]
  exact mem_colnames_normalizeUnit _ _ _ (by rwa [colnames_applyMaskTable])

theorem time_postClean_sublist (t : Table) :
    List.Sublist (postClean t).time t.time := by
  unfold postClean removeOutliers
  rw [time_applyMaskTable]
  refine List.Sublist.trans (applyMask_sublist _ _) ?h
  rw [time_normalizeUnit]
  unfold removeNans
  rw [time_applyMaskTable]
  exact applyMask_sublist _ _

/-! ### `_to_sap_lightcurve` -/

/-- The two shapes a downloaded product can take (`prod.download(...)`):
a LightCurve-shaped table, or a TargetPixelFile exposing a
`to_lightcurve(flux_column=...)` derivation. -/
inductive RawProduct where
  | lightCurve (t : Table)
  | targetPixelFile (toLc : String → Table)

/-- The LightCurve-with-`sap_flux` branch of `_to_sap_lightcurve`: copy
the table to `tbl := setCol obj "flux" (getCol obj "sap_flux")` (that is,
`tbl["flux"] = tbl["sap_flux"]`), then overwrite `flux_err` with
`sap_flux_err` when both error columns exist. -/
def sapOverwrite (obj : Table) : Table :=
  if "flux_err" ∈ (setCol obj "flux" (getCol obj "sap_flux")).colnames
      ∧ "sap_flux_err" ∈ (setCol obj "flux" (getCol obj "sap_flux")).colnames then
    setCol (setCol obj "flux" (getCol obj "sap_flux")) "flux_err"
      (getCol (setCol obj "flux" (getCol obj "sap_flux")) "sap_flux_err")
  else setCol obj "flux" (getCol obj "sap_flux")

/-- `_to_sap_lightcurve(obj)`: convert any downloaded object into a SAP
flux LightCurve, then clean and normalize. -/
def toSapLightcurve (obj : RawProduct) : Table :=
  match obj with
  | .lightCurve o =>
    let lc := if "sap_flux" ∈ o.colnames then sapOverwrite o else o
    postClean lc
  | .targetPixelFile toLc => postClean (toLc "sap_flux")

/-- The time axis a raw product carries into normalization. -/
def rawTime : RawProduct → List ℚ
  | .lightCurve o => o.time
  | .targetPixelFile toLc => (toLc "sap_flux").time

theorem time_sapOverwrite (obj : Table) : (sapOverwrite obj).time = obj.time := by
  unfold sapOverwrite
  split <;> simp [time_setCol]

theorem toSapLightcurve_time_sublist (r : RawProduct) :
    List.Sublist (toSapLightcurve r).time (rawTime r) := by
  cases r with
  | lightCurve o =>
    show List.Sublist (toSapLightcurve (.lightCurve o)).time o.time
    simp only [toSapLightcurve]
    by_cases h : "sap_flux" ∈ o.colnames
    · rw [if_pos h]
      have h1 := time_postClean_sublist (sapOverwrite o)
      rwa [time_sapOverwrite] at h1
    · rw [if_neg h]
      exact time_postClean_sublist o
  | targetPixelFile toLc =>
    exact time_postClean_sublist (toLc "sap_flux")

/-! ### `download_and_stitch`

One download attempt of an item (the guarded block
`obj = prod.download(...)` in the `try`) either yields a raw product, or
raises a `lightkurve` error (`lk.utils.LightkurveError`, the recoverable
download/parse failure class), or raises an exception of any other type.
An item's behaviour maps the attempt number to that outcome, so one
theorem quantifies over every possible failure sequence. -/

inductive Outcome where
  | ok (r : RawProduct)
  | lkErr (msg : String)
  | otherErr (msg : String)

abbrev ItemBeh := ℕ → Outcome

/-- The exception that terminates the pipeline: a re-raised
`LightkurveError` or an exception of any other type. -/
inductive PipeErr where
  | lk (msg : String)
  | other (msg : String)
deriving DecidableEq

/-- Observable trace of the per-item retry loop `for attempt in (1, 2)`:
how many download attempts ran, which diagnostic messages were passed to
`_clean_corrupt_file`, and the final result. -/
structure ItemTrace where
  attempts : ℕ
  recoveries : List String
  result : Except PipeErr Table

/-- The body of the per-item loop in `download_and_stitch`: attempt 1;
on a `LightkurveError` clean up and retry once; re-raise the failure of
attempt 2; any other exception propagates immediately (it is not caught,
so no cleanup runs for it). -/
def processItem (beh : ItemBeh) : ItemTrace :=
  match beh 1 with
  | .ok r => ⟨1, [], .ok (toSapLightcurve r)⟩
  | .otherErr m => ⟨1, [], .error (.other m)⟩
  | .lkErr m =>
    match beh 2 with
    | .ok r => ⟨2, [m], .ok (toSapLightcurve r)⟩
    | .otherErr m2 => ⟨2, [m], .error (.other m2)⟩
    | .lkErr m2 => ⟨2, [m, m2], .error (.lk m2)⟩

/-- The item loop of `download_and_stitch`: process the batch in order,
appending each normalized `FluxSeries` to the accumulator `lcs`; the first
propagating exception aborts the whole pipeline. -/
def runItems : List ItemBeh → Except PipeErr (List Table)
  | [] => .ok []
  | beh :: rest =>
    match (processItem beh).result with
    | .error e => .error e
    | .ok lc => (runItems rest).map fun lcs => lc :: lcs

/-- Metadata table of a search result (`srch.table`): named numeric
columns (per-item file sizes and the like). -/
structure SearchMeta where
  cols : List (String × List ℚ)
deriving DecidableEq

def SearchMeta.colnames (m : SearchMeta) : List String := m.cols.map Prod.fst

/-- `_estimate_size_mb`: the first recognized size column, summed and
converted to MB; `None` when no recognized column exists. -/
def estimateSizeMb (m : SearchMeta) : Option ℚ :=
  if "filesize" ∈ m.colnames then
    some (((m.cols.lookup "filesize").getD []).sum / 1024 ^ 2)
  else if "size" ∈ m.colnames then
    some (((m.cols.lookup "size").getD []).sum / 1024 ^ 2)
  else if "file_size" ∈ m.colnames then
    some (((m.cols.lookup "file_size").getD []).sum / 1024 ^ 2)
  else none

/-- The data columns of `astropy.table.vstack(..., join_type="inner")`:
the first table's columns that every table shares, each concatenated. -/
def vstackCols (ts : List Table) : List (String × List (Option ℚ)) :=
  match ts with
  | [] => []
  | t0 :: _ =>
    (t0.colnames.filter fun n => ts.all fun t2 => decide (n ∈ t2.colnames)).map
      fun n => (n, (ts.map fun t2 => getCol t2 n).flatten)

/-- Row-stacking of tables: times concatenate in order; columns are
inner-joined.  No sorting, deduplication or gap filling. -/
def vstackInner (ts : List Table) : Table :=
  ⟨(ts.map Table.time).flatten, vstackCols ts⟩

/-- `lk.LightCurveCollection(lcs).stitch()`: the default corrector
normalizes each curve (dimensionless unit, factor 1), then the curves are
vertically stacked. -/
def stitchLC (lcs : List Table) : Table :=
  vstackInner (lcs.map (normalizeUnit 1))

/-- `download_and_stitch(srch)`: the size estimate feeds only the progress
message (first component); the stitched series is built from the items
alone. -/
def downloadAndStitch (meta : SearchMeta) (behs : List ItemBeh) :
    Option ℚ × Except PipeErr Table :=
  (estimateSizeMb meta, (runItems behs).map stitchLC)

/-! ### `search_tess_lc` -/

/-- The cadence loop `for exptime in (20, 120, 1800)`: return the first
non-empty search result, else fall through. -/
def searchLoop {α : Type} (search : ℕ → List α) : List ℕ → List α
  | [] => []
  | e :: rest => if (search e).length > 0 then search e else searchLoop search rest

/-- `search_tess_lc(tic_id)` over an arbitrary search service: try 20 s,
120 s, 1800 s cadence in that order; an empty `SearchResult` when all
three come back empty. -/
def searchTessLc {α : Type} (search : ℕ → List α) : List α :=
  searchLoop search [20, 120, 1800]

/-! ### `plot_periodogram` -/

/-- The arguments `plot_periodogram` passes to `lc.to_periodogram`. -/
structure PgCall where
  method : String
  minimumFrequency : ℚ
  maximumFrequency : ℚ
  oversampleFactor : ℕ
deriving DecidableEq

/-- `min_p, max_p = 50, 2000` (seconds). -/
def minPeriodS : ℚ := 50

def maxPeriodS : ℚ := 2000

/-- `plot_periodogram(lc, gaia_id)`, abstracted to the data that reaches
the periodogram computation: the `to_periodogram` call parameters
(`min_f = 1/max_p*86400`, `max_f = 1/min_p*86400` cycles per day) and the
series they apply to.  The rendering itself is a terminal side effect. -/
def plotPeriodogram (lc : Table) : PgCall × Table :=
  (⟨"lombscargle", 1 / maxPeriodS * 86400, 1 / minPeriodS * 86400, 5⟩, lc)

/-! ### `_clean_corrupt_file`

`re.search(r"(/[^ ]+\.fits)", err_msg)` is embedded denotationally: the
regex matches at the leftmost start position from which a match exists,
and the greedy `[^ ]+` makes the match extend to the last possible
`.fits` there.  `spanOk cs i e` states that the character span
`[i, e)` of the message is such a match candidate:
a `/`, then at least one non-space character, ending in `.fits`. -/

/-- Span shape required by the claim wording: starts with `/`, contains
no spaces, ends in `.fits` (so spans at least 6 characters). -/
def claimSpanOk (cs : List Char) (i e : ℕ) : Bool :=
  decide (i + 6 ≤ e) && decide (e ≤ cs.length)
  && ((cs.drop i).take 1 == ['/'])
  && (((cs.drop (i + 1)).take (e - i - 1)).all fun c => !(c == ' '))
  && ((cs.drop (e - 5)).take 5 == ".fits".data)

/-- Span shape matched by `/[^ ]+\.fits`: as `claimSpanOk`, with at least
one character between the `/` and the `.fits` (the `[^ ]+`). -/
def spanOk (cs : List Char) (i e : ℕ) : Bool :=
  decide (i + 7 ≤ e) && claimSpanOk cs i e

/-- Greedy extent of a match starting at `i`: the largest admissible end. -/
def matchEndAt (cs : List Char) (i : ℕ) : Option ℕ :=
  (List.range (cs.length + 1)).reverse.find? fun e => spanOk cs i e

/-- `re.search(r"(/[^ ]+\.fits)", s)` followed by `m.group(1)`:
the leftmost-then-greedy match, if any. -/
def extractPath (s : String) : Option String :=
  (List.range s.data.length).findSome? fun i =>
    (matchEndAt s.data i).map fun e => String.mk ((s.data.drop i).take (e - i))

/-- Claim-side predicate: the message contains an absolute path
(starting with `/`, containing no spaces) ending in `.fits`. -/
def claimHasAbsFitsPath (s : String) : Bool :=
  (List.range s.data.length).any fun i =>
    (List.range (s.data.length + 1)).any fun e => claimSpanOk s.data i e

/-- The local download cache, as the set of existing absolute paths. -/
abbrev FileSys := Finset String

/-- `Path.unlink(missing_ok=...)`: delete the entry; a missing target is
an error unless `missing_ok` is set. -/
def unlinkFile (missingOk : Bool) (fs : FileSys) (p : String) :
    Except String FileSys :=
  if p ∈ fs then .ok (fs.erase p)
  else if missingOk then .ok fs
  else .error "FileNotFoundError"

/-- `_clean_corrupt_file(err_msg)`: extract a `.fits` path from the
message; when one is found and exists, unlink it (with
`missing_ok=True`); otherwise do nothing. -/
def cleanCorruptFile (fs : FileSys) (msg : String) : Except String FileSys :=
  match extractPath msg with
  | none => .ok fs
  | some p => if p ∈ fs then unlinkFile true fs p else .ok fs

/-! ### `gaia_to_tic` and the `__main__` block -/

/-- `gaia_to_tic`, over the row set the catalog query returned (modelled
by the rows' integer `ID` fields): empty result set raises `ValueError`,
otherwise the first row's ID is returned. -/
def gaiaToTic (rows : List Int) : Except String Int :=
  if rows.length = 0 then
    .error "Could not find the cross-match identifier for this Gaia source in the TIC catalog."
  else .ok (rows.headD 0)

/-- One run's external world: the command line, the catalog query rows,
the search service (per resolved TIC and cadence, the items found, each
given by its download behaviour), and the search result metadata. -/
structure MainCfg where
  argv : List String
  queryRows : List Int
  search : Int → ℕ → List ItemBeh
  meta : SearchMeta

/-- How a run terminates at the process boundary.  `sys.exit(msg)` prints
the one-line message and exits with status 1; an uncaught exception prints
a multi-line traceback and exits with status 1; on success the plot is
shown and the process exits with status 0. -/
inductive MainOutcome where
  | singleLineExit (msg : String)
  | uncaught (e : PipeErr)
  | success
deriving DecidableEq

/-- The `__main__` block: argument check, resolve (only `ValueError` is
caught), search with empty-batch check, then stitch and plot with no
exception handling around them. -/
def mainRun (cfg : MainCfg) : MainOutcome :=
  if cfg.argv.length ≠ 2 then
    .singleLineExit "Usage: python tess_gaia_ps.py <Gaia_ID>"
  else
    match gaiaToTic cfg.queryRows with
    | .error m => .singleLineExit m
    | .ok tic =>
      if (searchTessLc (cfg.search tic)).length = 0 then
        .singleLineExit "This target has not been observed by TESS."
      else
        match (downloadAndStitch cfg.meta (searchTessLc (cfg.search tic))).2 with
        | .error e => .uncaught e
        | .ok _ => .success

def exitCodeOf : MainOutcome → ℕ
  | .singleLineExit _ => 1
  | .uncaught _ => 1
  | .success => 0

/-- Whether the failure surfaced as a single human-readable line. -/
def singleLineOf : MainOutcome → Bool
  | .singleLineExit _ => true
  | .uncaught _ => false
  | .success => false

/-- Whether `plot_periodogram` ran (it is the last statement of the
success path). -/
def plottedOf : MainOutcome → Bool
  | .success => true
  | _ => false

/-! ### Derived notions and claim-side definitions -/

/-- Number of samples in a series. -/
def numSamples (t : Table) : ℕ := t.time.length

/-- What the cleaning pipeline does to the flux channel alone: drop NaN
entries, rescale by the NaN-ignoring median to ppm, then apply the
10-sigma clip mask.  `_to_sap_lightcurve` is proved below to send the
input's `sap_flux` channel through exactly this function. -/
def fluxPipeline (xs : List (Option ℚ)) : List (Option ℚ) :=
  applyMask
    (sigmaClipKeep 10 ((xs.filter fun o => o.isSome).map
      (Option.map fun x => x / medianQ xs.reduceOption * 1000000)))
    ((xs.filter fun o => o.isSome).map
      (Option.map fun x => x / medianQ xs.reduceOption * 1000000))

/-- Modelled from the claim wording of C1: the aperture-summed channel
values "after NaN removal and 10-sigma outlier trimming" (and nothing
else — in particular, no ppm rescaling). -/
def claimTrimmedSap (xs : List (Option ℚ)) : List (Option ℚ) :=
  applyMask (sigmaClipKeep 10 (xs.filter fun o => o.isSome))
    (xs.filter fun o => o.isSome)

/-- Claim C1 as stated, at one input table: output flux equals the
trimmed aperture-summed channel values 1:1, and no aperture-summed
channel is left in the output. -/
def c1ClaimHolds (t : Table) : Prop :=
  getCol (toSapLightcurve (.lightCurve t)) "flux"
      = claimTrimmedSap (getCol t "sap_flux")
    ∧ ¬ "sap_flux" ∈ (toSapLightcurve (.lightCurve t)).colnames

/-- Claim C4 as stated, at one run configuration: every fatal outcome
surfaces as a single human-readable line, with non-zero status and no
plot. -/
def c4ClaimHolds (cfg : MainCfg) : Prop :=
  mainRun cfg ≠ .success →
    exitCodeOf (mainRun cfg) ≠ 0 ∧ singleLineOf (mainRun cfg) = true
      ∧ plottedOf (mainRun cfg) = false

/-- Concrete LightCurve-shaped table with a secondary `sap_flux` column
whose values differ from the default flux channel. -/
def c1T0 : Table :=
  ⟨[0, 1], [("flux", [some 1, some 1]), ("sap_flux", [some 2, some 2])]⟩

/-- Concrete LightCurve-shaped table used as a witness input. -/
def c1T1 : Table := ⟨[0], [("flux", [some 3]), ("sap_flux", [some 4])]⟩

/-- An item whose download raises a recoverable error on every attempt. -/
def c4BadBeh : ItemBeh := fun _ => .lkErr "bad"

/-- A run whose only search item fails both download attempts, so the
stitch pipeline raises fatally. -/
def c4Cfg : MainCfg :=
  ⟨["tess_gaia_ps.py", "123"], [99], fun _ _ => [c4BadBeh], ⟨[]⟩⟩

/-! ### Helper lemmas about `sapOverwrite` and the pipeline -/

theorem getCol_sapOverwrite_flux (o : Table) :
    getCol (sapOverwrite o) "flux" = getCol o "sap_flux" := by
  unfold sapOverwrite
  split
  · rw [getCol_setCol_ne _ _ _ _ (by decide), getCol_setCol_self]
  · rw [getCol_setCol_self]

theorem getCol_sapOverwrite_sap (o : Table) :
    getCol (sapOverwrite o) "sap_flux" = getCol o "sap_flux" := by
  unfold sapOverwrite
  split
  · rw [getCol_setCol_ne _ _ _ _ (by decide), getCol_setCol_ne _ _ _ _ (by decide)]
  · rw [getCol_setCol_ne _ _ _ _ (by decide)]

theorem mem_colnames_sapOverwrite (o : Table) (m : String)
    (h : m ∈ o.colnames) : m ∈ (sapOverwrite o).colnames := by
  unfold sapOverwrite
  split
  · exact mem_colnames_setCol _ _ _ _ (mem_colnames_setCol _ _ _ _ h)
  · exact mem_colnames_setCol _ _ _ _ h

/-- A successful item trace comes from a successful attempt 1, or from a
recoverable failure followed by a successful attempt 2. -/
theorem processItem_ok_cases (beh : ItemBeh) (lc : Table)
    (h : (processItem beh).result = .ok lc) :
    ∃ r, (beh 1 = .ok r ∨ beh 2 = .ok r) ∧ lc = toSapLightcurve r := by
  unfold processItem at h
  cases h1 : beh 1 with
  | ok r =>
    rw [h1] at h
    simp only at h
    exact ⟨r, Or.inl rfl, by injection h with h2; exact h2.symm⟩
  | otherErr m =>
    rw [h1] at h
    simp only at h
    cases h
  | lkErr m =>
    rw [h1] at h
    cases h2 : beh 2 with
    | ok r =>
      rw [h2] at h
      simp only at h
      exact ⟨r, Or.inr rfl, by injection h with h3; exact h3.symm⟩
    | otherErr m2 =>
      rw [h2] at h
      simp only at h
      cases h
    | lkErr m2 =>
      rw [h2] at h
      simp only at h
      cases h

/-- A successful pipeline run processes every item: one output per item. -/
theorem runItems_ok_length :
    ∀ (behs : List ItemBeh) (lcs : List Table),
      runItems behs = .ok lcs → lcs.length = behs.length := by
  intro behs
  induction behs with
  | nil =>
    intro lcs h
    simp only [runItems] at h
    injection h with h1
    rw [← h1]
    rfl
  | cons beh rest ih =>
    intro lcs h
    simp only [runItems] at h
    cases hr : (processItem beh).result with
    | error e => rw [hr] at h; cases h
    | ok lc =>
      rw [hr] at h
      cases hrest : runItems rest with
      | error e => rw [hrest] at h; cases h
      | ok lcs2 =>
        rw [hrest] at h
        simp only [Except.map] at h
        injection h with h1
        rw [← h1]
        simp [ih lcs2 hrest]

/-- Every output of a successful pipeline run is the normalization of a
raw product delivered by a successful attempt of one of the items. -/
theorem runItems_ok_mem :
    ∀ (behs : List ItemBeh) (lcs : List Table), runItems behs = .ok lcs →
      ∀ lc ∈ lcs, ∃ beh ∈ behs, ∃ r,
        (beh 1 = .ok r ∨ beh 2 = .ok r) ∧ lc = toSapLightcurve r := by
  intro behs
  induction behs with
  | nil =>
    intro lcs h lc hlc
    simp only [runItems] at h
    injection h with h1
    rw [← h1] at hlc
    cases hlc
  | cons beh rest ih =>
    intro lcs h lc hlc
    simp only [runItems] at h
    cases hr : (processItem beh).result with
    | error e => rw [hr] at h; cases h
    | ok lc0 =>
      rw [hr] at h
      cases hrest : runItems rest with
      | error e => rw [hrest] at h; cases h
      | ok lcs2 =>
        rw [hrest] at h
        simp only [Except.map] at h
        injection h with h1
        rw [← h1] at hlc
        rcases List.mem_cons.mp hlc with h2 | h2
        · obtain ⟨r, hattempt, hlc0⟩ := processItem_ok_cases beh lc0 hr
          exact ⟨beh, List.mem_cons_self beh rest, r, hattempt, h2 ▸ hlc0⟩
        · obtain ⟨b, hb, r, hattempt, hr2⟩ := ih lcs2 hrest lc h2
          exact ⟨b, List.mem_cons_of_mem beh hb, r, hattempt, hr2⟩

/-- Stitching concatenates the constituent time columns verbatim. -/
theorem time_stitchLC (lcs : List Table) :
    (stitchLC lcs).time = (lcs.map Table.time).flatten := by
  unfold stitchLC vstackInner
  have h : (lcs.map (normalizeUnit 1)).map Table.time = lcs.map Table.time := by
    rw [List.map_map]
    induction lcs with
    | nil => rfl
    | cons lc lcs ih =>
      simp only [List.map_cons, Function.comp, time_normalizeUnit, ih]
  simp only [h]

/-! ### Claim theorems -/

/-- C6: `plot_periodogram` converts the fixed period band (50, 2000)
seconds into the frequency band [43.2, 1728.0] cycles/day exactly
(`min_frequency = 86400/2000`, `max_frequency = 86400/50`) and requests
the Lomb-Scargle periodogram of the stitched series with exactly these
bounds and oversample factor 5. -/
theorem c6_period_band_conversion (lc : Table) :
    (plotPeriodogram lc).1.method = "lombscargle"
    ∧ (plotPeriodogram lc).1.minimumFrequency = 86400 / 2000
    ∧ (plotPeriodogram lc).1.minimumFrequency = 43.2
    ∧ (plotPeriodogram lc).1.maximumFrequency = 86400 / 50
    ∧ (plotPeriodogram lc).1.maximumFrequency = 1728
    ∧ (plotPeriodogram lc).1.oversampleFactor = 5
    ∧ (plotPeriodogram lc).2 = lc := by
  refine ⟨rfl, ?h1, ?h2, ?h3, ?h4, rfl, rfl⟩
  · show (1 / maxPeriodS * 86400 : ℚ) = 86400 / 2000
    norm_num [maxPeriodS]
  · show (1 / maxPeriodS * 86400 : ℚ) = 43.2
    norm_num [maxPeriodS]
  · show (1 / minPeriodS * 86400 : ℚ) = 86400 / 50
    norm_num [minPeriodS]
  · show (1 / minPeriodS * 86400 : ℚ) = 1728
    norm_num [minPeriodS]

/-- C7: `search_tess_lc` tries the cadences 20 s, 120 s, 1800 s in that
fixed order, returns the first non-empty batch found at a single cadence
(never merging batches), and returns an explicitly empty batch when all
cadences yield empty results. -/
theorem c7_cadence_priority {α : Type} (s : ℕ → List α) :
    (s 20 ≠ [] ∧ searchTessLc s = s 20)
    ∨ (s 20 = [] ∧ s 120 ≠ [] ∧ searchTessLc s = s 120)
    ∨ (s 20 = [] ∧ s 120 = [] ∧ s 1800 ≠ [] ∧ searchTessLc s = s 1800)
    ∨ (s 20 = [] ∧ s 120 = [] ∧ s 1800 = [] ∧ searchTessLc s = []) := by
  by_cases h20 : s 20 = []
  · by_cases h120 : s 120 = []
    · by_cases h1800 : s 1800 = []
      · right; right; right
        refine ⟨h20, h120, h1800, ?h⟩
        simp [searchTessLc, searchLoop, h20, h120, h1800]
      · right; right; left
        refine ⟨h20, h120, h1800, ?h⟩
        simp [searchTessLc, searchLoop, h20, h120, List.length_pos.mpr h1800]
    · right; left
      refine ⟨h20, h120, ?h⟩
      simp [searchTessLc, searchLoop, h20, List.length_pos.mpr h120]
  · left
    refine ⟨h20, ?h⟩
    simp [searchTessLc, searchLoop, List.length_pos.mpr h20]

/-- C10: when the search result metadata lacks all recognized size
columns, `_estimate_size_mb` returns `None` rather than raising, and the
stitched output of `download_and_stitch` is the same as with any other
metadata: the estimate feeds only the progress message. -/
theorem c10_size_estimate_progress_only (m : SearchMeta)
    (h1 : ¬ "filesize" ∈ m.colnames) (h2 : ¬ "size" ∈ m.colnames)
    (h3 : ¬ "file_size" ∈ m.colnames) :
    estimateSizeMb m = none
    ∧ ∀ (m2 : SearchMeta) (behs : List ItemBeh),
        (downloadAndStitch m behs).2 = (downloadAndStitch m2 behs).2 := by
  constructor
  · unfold estimateSizeMb
    rw [if_neg h1, if_neg h2, if_neg h3]
  · intro m2 behs
    rfl

/-- Metadata table with no recognized size column. -/
def c10Meta : SearchMeta := ⟨[("obs_id", [1, 2])]⟩

/-- Witness for C10 at a concrete metadata table. -/
theorem c10_size_estimate_progress_only_witness :
    (¬ "filesize" ∈ c10Meta.colnames) ∧ (¬ "size" ∈ c10Meta.colnames)
    ∧ (¬ "file_size" ∈ c10Meta.colnames)
    ∧ (estimateSizeMb c10Meta = none
       ∧ ∀ (m2 : SearchMeta) (behs : List ItemBeh),
          (downloadAndStitch c10Meta behs).2 = (downloadAndStitch m2 behs).2) :=
  ⟨by decide, by decide, by decide,
    c10_size_estimate_progress_only c10Meta (by decide) (by decide) (by decide)⟩

/-- C2: for every item behaviour, the retry loop performs at most 2
download attempts; after each recoverable (`LightkurveError`) failure the
cleanup `_clean_corrupt_file` is invoked with that failure's diagnostic
message; when the second attempt also fails recoverably, the loop
re-raises that failure; and a successful pipeline run has processed every
item (no silent skipping). -/
theorem c2_retry_bound (beh : ItemBeh) :
    (processItem beh).attempts ≤ 2
    ∧ (∀ m, beh 1 = .lkErr m → (processItem beh).recoveries.head? = some m)
    ∧ (∀ m m2, beh 1 = .lkErr m → beh 2 = .lkErr m2 →
        processItem beh = ⟨2, [m, m2], .error (.lk m2)⟩)
    ∧ (∀ (behs : List ItemBeh) (lcs : List Table),
        runItems behs = .ok lcs → lcs.length = behs.length) := by
  refine ⟨?h1, ?h2, ?h3, runItems_ok_length⟩
  · unfold processItem
    cases beh 1 with
    | ok r => simp
    | otherErr m => simp
    | lkErr m => cases beh 2 <;> simp
  · intro m hm
    simp only [processItem, hm]
    cases beh 2 <;> simp
  · intro m m2 hm hm2
    simp only [processItem, hm, hm2]

/-- An item failing recoverably on both attempts. -/
def c2Beh : ItemBeh := fun a => if a = 1 then .lkErr "err one" else .lkErr "err two"

/-- Witness for C2: both diagnostics reach the cleanup, two attempts,
fatal re-raise of the second failure. -/
theorem c2_retry_bound_witness :
    c2Beh 1 = .lkErr "err one" ∧ c2Beh 2 = .lkErr "err two"
    ∧ processItem c2Beh = ⟨2, ["err one", "err two"], .error (.lk "err two")⟩ :=
  ⟨rfl, rfl, (c2_retry_bound c2Beh).2.2.1 "err one" "err two" rfl rfl⟩

/-- C3: only `LightkurveError` failures are retried.  An exception of any
other type on attempt 1 propagates immediately with no retry and no
cleanup; on attempt 2 it propagates with no cleanup for it; and a second
attempt only ever happens after a recoverable first failure. -/
theorem c3_unclassified_not_retried (beh : ItemBeh) :
    (∀ m, beh 1 = .otherErr m → processItem beh = ⟨1, [], .error (.other m)⟩)
    ∧ (∀ m m2, beh 1 = .lkErr m → beh 2 = .otherErr m2 →
        processItem beh = ⟨2, [m], .error (.other m2)⟩)
    ∧ ((processItem beh).attempts = 2 → ∃ m, beh 1 = .lkErr m) := by
  refine ⟨?h1, ?h2, ?h3⟩
  · intro m hm
    simp only [processItem, hm]
  · intro m m2 hm hm2
    simp only [processItem, hm, hm2]
  · intro h
    cases h1 : beh 1 with
    | ok r => simp [processItem, h1] at h
    | otherErr m => simp [processItem, h1] at h
    | lkErr m => exact ⟨m, rfl⟩

/-- An item raising a non-`LightkurveError` exception. -/
def c3Beh : ItemBeh := fun _ => .otherErr "TypeError"

/-- Witness for C3: one attempt, no cleanup, immediate propagation. -/
theorem c3_unclassified_not_retried_witness :
    c3Beh 1 = .otherErr "TypeError"
    ∧ processItem c3Beh = ⟨1, [], .error (.other "TypeError")⟩ :=
  ⟨rfl, (c3_unclassified_not_retried c3Beh).1 "TypeError" rfl⟩

/-! ### Corruption recovery lemmas -/

theorem cleanCorruptFile_none (fs : FileSys) (msg : String)
    (hp : extractPath msg = none) : cleanCorruptFile fs msg = .ok fs := by
  unfold cleanCorruptFile
  simp only [hp]

theorem cleanCorruptFile_some (fs : FileSys) (msg : String) (p : String)
    (hp : extractPath msg = some p) :
    cleanCorruptFile fs msg
      = if p ∈ fs then .ok (fs.erase p) else .ok fs := by
  unfold cleanCorruptFile
  simp only [hp]
  by_cases hin : p ∈ fs
  · rw [if_pos hin, if_pos hin]
    unfold unlinkFile
    rw [if_pos hin]
  · rw [if_neg hin, if_neg hin]

theorem findSome?_some_exists {α β : Type} (f : α → Option β) (b : β) :
    ∀ l : List α, l.findSome? f = some b → ∃ a, a ∈ l ∧ f a = some b := by
  intro l
  induction l with
  | nil => intro h; simp [List.findSome?] at h
  | cons x xs ih =>
    intro h
    cases hx : f x with
    | some b2 =>
      simp only [List.findSome?_cons, hx] at h
      exact ⟨x, List.mem_cons_self x xs, hx.trans h⟩
    | none =>
      simp only [List.findSome?_cons, hx] at h
      obtain ⟨a, ha, hfa⟩ := ih h
      exact ⟨a, List.mem_cons_of_mem x ha, hfa⟩

/-- When the regex extracts a path, the message does contain a substring
starting with `/`, containing no spaces, and ending in `.fits`. -/
theorem extractPath_some_claimHas (s : String) (p : String)
    (h : extractPath s = some p) : claimHasAbsFitsPath s = true := by
  unfold extractPath at h
  obtain ⟨i, hi, hfi⟩ := findSome?_some_exists _ _ _ h
  cases he : matchEndAt s.data i with
  | none => rw [he] at hfi; cases hfi
  | some e =>
    have hspan : spanOk s.data i e = true := by
      unfold matchEndAt at he
      exact List.find?_some he
    have hclaim : claimSpanOk s.data i e = true := by
      unfold spanOk at hspan
      simp only [Bool.and_eq_true] at hspan
      exact hspan.2
    have hee : e ≤ s.data.length := by
      have h5 := hclaim
      unfold claimSpanOk at h5
      simp only [Bool.and_eq_true, decide_eq_true_eq] at h5
      exact h5.1.1.1.2
    unfold claimHasAbsFitsPath
    rw [List.any_eq_true]
    refine ⟨i, hi, ?h6⟩
    rw [List.any_eq_true]
    exact ⟨e, List.mem_range.mpr (by omega), hclaim⟩

/-- C8: `_clean_corrupt_file` is a best-effort no-op in degenerate cases:
it never raises; a second call on the result of a first call changes
nothing and raises no error; when no path is recognized in the message,
or the extracted target does not exist, the file system is untouched. -/
theorem c8_recovery_idempotent (fs : FileSys) (msg : String) :
    (∃ fs2, cleanCorruptFile fs msg = .ok fs2)
    ∧ (∀ fs2, cleanCorruptFile fs msg = .ok fs2 →
        cleanCorruptFile fs2 msg = .ok fs2)
    ∧ (extractPath msg = none → cleanCorruptFile fs msg = .ok fs)
    ∧ (∀ p, extractPath msg = some p → ¬ p ∈ fs →
        cleanCorruptFile fs msg = .ok fs) := by
  refine ⟨?h1, ?h2, ?h3, ?h4⟩
  · cases hp : extractPath msg with
    | none => exact ⟨fs, cleanCorruptFile_none fs msg hp⟩
    | some p =>
      rw [cleanCorruptFile_some fs msg p hp]
      by_cases hin : p ∈ fs
      · exact ⟨fs.erase p, by rw [if_pos hin]⟩
      · exact ⟨fs, by rw [if_neg hin]⟩
  · intro fs2 h
    cases hp : extractPath msg with
    | none =>
      rw [cleanCorruptFile_none fs msg hp] at h
      injection h with h1
      rw [← h1]
      exact cleanCorruptFile_none fs msg hp
    | some p =>
      rw [cleanCorruptFile_some fs msg p hp] at h
      rw [cleanCorruptFile_some fs2 msg p hp]
      by_cases hin : p ∈ fs
      · rw [if_pos hin] at h
        injection h with h1
        have hout : ¬ p ∈ fs2 := by
          rw [← h1]
          exact Finset.not_mem_erase p fs
        rw [if_neg hout]
      · rw [if_neg hin] at h
        injection h with h1
        rw [← h1]
        rw [if_neg hin]
  · intro hp
    exact cleanCorruptFile_none fs msg hp
  · intro p hp hin
    rw [cleanCorruptFile_some fs msg p hp, if_neg hin]

/-- A diagnostic message embedding the absolute path of a cache file. -/
def c8Msg : String := "bad /a/x.fits file"

/-- A cache holding exactly that file. -/
def c8Fs : FileSys := {"/a/x.fits"}

/-- Witness for C8: the path is extracted and deleted by the first call;
the second call is a no-op and neither call errors. -/
theorem c8_recovery_idempotent_witness :
    extractPath c8Msg = some "/a/x.fits"
    ∧ cleanCorruptFile c8Fs c8Msg = .ok (∅ : FileSys)
    ∧ cleanCorruptFile (∅ : FileSys) c8Msg = .ok (∅ : FileSys) := by
  have hp : extractPath c8Msg = some "/a/x.fits" := by decide
  have h1 : cleanCorruptFile c8Fs c8Msg = .ok (∅ : FileSys) := by
    rw [cleanCorruptFile_some c8Fs c8Msg _ hp, if_pos (by decide)]
    exact congrArg Except.ok (by decide)
  exact ⟨hp, h1, (c8_recovery_idempotent c8Fs c8Msg).2.1 ∅ h1⟩

/-- C9: per call, `_clean_corrupt_file` deletes at most one file-system
entry, and only when the diagnostic message contains an absolute
space-free substring ending in `.fits`; for every message lacking such a
substring the file system is left entirely unchanged. -/
theorem c9_deletes_at_most_one (fs : FileSys) (msg : String) (fs2 : FileSys)
    (h : cleanCorruptFile fs msg = .ok fs2) :
    (claimHasAbsFitsPath msg = false → fs2 = fs)
    ∧ (fs2 = fs ∨ ∃ p, p ∈ fs ∧ extractPath msg = some p ∧ fs2 = fs.erase p)
    ∧ (∀ p, extractPath msg = some p → claimHasAbsFitsPath msg = true) := by
  cases hp : extractPath msg with
  | none =>
    rw [cleanCorruptFile_none fs msg hp] at h
    injection h with h1
    refine ⟨fun _ => h1.symm, Or.inl h1.symm, ?h3⟩
    intro p hp2
    cases hp2
  | some p =>
    rw [cleanCorruptFile_some fs msg p hp] at h
    have hby : claimHasAbsFitsPath msg = true := extractPath_some_claimHas msg p hp
    have hfalse : claimHasAbsFitsPath msg = false → fs2 = fs := by
      intro hh
      rw [hh] at hby
      cases hby
    have hbridge : ∀ q, Option.some p = some q → claimHasAbsFitsPath msg = true :=
      fun q _ => hby
    by_cases hin : p ∈ fs
    · rw [if_pos hin] at h
      injection h with h1
      exact ⟨hfalse, Or.inr ⟨p, hin, rfl, h1.symm⟩, hbridge⟩
    · rw [if_neg hin] at h
      injection h with h1
      exact ⟨fun _ => h1.symm, Or.inl h1.symm, hbridge⟩

/-- A diagnostic message with no recognizable path. -/
def c9Msg : String := "connection timeout"

/-- A cache the degenerate call must leave unchanged. -/
def c9Fs : FileSys := {"/tmp/a.fits"}

/-- Witness for C9 at a concrete pathless message: nothing is deleted. -/
theorem c9_deletes_at_most_one_witness :
    cleanCorruptFile c9Fs c9Msg = .ok c9Fs
    ∧ ((claimHasAbsFitsPath c9Msg = false → c9Fs = c9Fs)
       ∧ (c9Fs = c9Fs
          ∨ ∃ p, p ∈ c9Fs ∧ extractPath c9Msg = some p ∧ c9Fs = c9Fs.erase p)
       ∧ (∀ p, extractPath c9Msg = some p → claimHasAbsFitsPath c9Msg = true)) := by
  have h : cleanCorruptFile c9Fs c9Msg = .ok c9Fs :=
    cleanCorruptFile_none c9Fs c9Msg (by decide)
  exact ⟨h, c9_deletes_at_most_one c9Fs c9Msg c9Fs h⟩

/-- C5: a stitched series is the pure concatenation of the per-item
`FluxSeries`: its time column is the constituent time columns laid
end-to-end (no merge, dedup or gap filling), its sample count is the
exact sum of the constituent sample counts, it is what the stitch
pipeline returns, and when every successfully downloaded raw product is
time-ordered, the time values are non-decreasing within each constituent
block. -/
theorem c5_stitched_is_pure_concatenation (behs : List ItemBeh) (lcs : List Table)
    (h : runItems behs = .ok lcs) :
    (stitchLC lcs).time = (lcs.map Table.time).flatten
    ∧ numSamples (stitchLC lcs) = (lcs.map numSamples).sum
    ∧ (∀ meta : SearchMeta, (downloadAndStitch meta behs).2 = .ok (stitchLC lcs))
    ∧ ((∀ beh ∈ behs, ∀ r, (beh 1 = .ok r ∨ beh 2 = .ok r) →
          (rawTime r).Pairwise (· ≤ ·)) →
        ∀ lc ∈ lcs, lc.time.Pairwise (· ≤ ·)) := by
  refine ⟨time_stitchLC lcs, ?h2, ?h3, ?h4⟩
  · show (stitchLC lcs).time.length = (lcs.map fun lc => lc.time.length).sum
    rw [time_stitchLC, List.length_flatten, List.map_map]
    rfl
  · intro meta
    show (runItems behs).map stitchLC = .ok (stitchLC lcs)
    rw [h]
    rfl
  · intro hsorted lc hlc
    obtain ⟨beh, hbeh, r, hattempt, hlc2⟩ := runItems_ok_mem behs lcs h lc hlc
    have hsub := toSapLightcurve_time_sublist r
    rw [← hlc2] at hsub
    exact (hsorted beh hbeh r hattempt).sublist hsub

/-- A downloadable one-segment product. -/
def c5T : Table := ⟨[0, 1], [("flux", [some 1, some 2])]⟩

/-- A batch of one item that downloads successfully at the first attempt. -/
def c5Behs : List ItemBeh := [fun _ => .ok (.lightCurve c5T)]

/-- Witness for C5 at a concrete one-item batch. -/
theorem c5_stitched_is_pure_concatenation_witness :
    runItems c5Behs = .ok [toSapLightcurve (.lightCurve c5T)]
    ∧ ((stitchLC [toSapLightcurve (.lightCurve c5T)]).time
          = ([toSapLightcurve (.lightCurve c5T)].map Table.time).flatten
       ∧ numSamples (stitchLC [toSapLightcurve (.lightCurve c5T)])
          = ([toSapLightcurve (.lightCurve c5T)].map numSamples).sum
       ∧ (∀ meta : SearchMeta,
            (downloadAndStitch meta c5Behs).2
              = .ok (stitchLC [toSapLightcurve (.lightCurve c5T)]))
       ∧ ((∀ beh ∈ c5Behs, ∀ r, (beh 1 = .ok r ∨ beh 2 = .ok r) →
              (rawTime r).Pairwise (· ≤ ·)) →
            ∀ lc ∈ [toSapLightcurve (.lightCurve c5T)],
              lc.time.Pairwise (· ≤ ·))) :=
  ⟨rfl, c5_stitched_is_pure_concatenation c5Behs _ rfl⟩

/-- C1 (amended): for a LightCurve-shaped product exposing a `sap_flux`
column, the output flux channel of `_to_sap_lightcurve` is exactly the
input's aperture-summed channel sent through NaN removal, ppm rescaling
and 10-sigma trimming (in particular it is a function of the `sap_flux`
channel alone); however the `sap_flux` column itself remains present in
the output (row-filtered but not rescaled), rather than being removed. -/
theorem c1_sap_channel (t : Table) (hsap : "sap_flux" ∈ t.colnames) :
    getCol (toSapLightcurve (.lightCurve t)) "flux"
        = fluxPipeline (getCol t "sap_flux")
    ∧ "sap_flux" ∈ (toSapLightcurve (.lightCurve t)).colnames
    ∧ List.Sublist (getCol (toSapLightcurve (.lightCurve t)) "sap_flux")
        (getCol t "sap_flux") := by
  have hts : toSapLightcurve (.lightCurve t) = postClean (sapOverwrite t) := by
    simp only [toSapLightcurve]
    rw [if_pos hsap]
  refine ⟨?h1, ?h2, ?h3⟩
  · rw [hts, getCol_postClean_flux, getCol_sapOverwrite_flux]
    rfl
  · rw [hts]
    exact mem_colnames_postClean _ _ (mem_colnames_sapOverwrite _ _ hsap)
  · rw [hts]
    have h := getCol_postClean_other_sublist (sapOverwrite t) "sap_flux"
      (by decide) (by decide)
    rwa [getCol_sapOverwrite_sap] at h

/-- Counterexample to C1 as stated: on `c1T0` the output of
`_to_sap_lightcurve` still exposes a `sap_flux` column (the code
overwrites `flux` with it but never deletes it), so no input with a
`sap_flux` column can satisfy the claimed "no leftover aperture-summed
channel" conjunct. -/
theorem c1_sap_channel_counterexample : ¬ c1ClaimHolds c1T0 := by
  have hts : toSapLightcurve (.lightCurve c1T0) = postClean (sapOverwrite c1T0) := by
    simp only [toSapLightcurve]
    rw [if_pos (by decide)]
  intro h
  apply h.2
  rw [hts]
  exact mem_colnames_postClean _ _ (mem_colnames_sapOverwrite _ _ (by decide))

/-- Witness for the amended C1 at a concrete table. -/
theorem c1_sap_channel_witness :
    "sap_flux" ∈ c1T1.colnames
    ∧ (getCol (toSapLightcurve (.lightCurve c1T1)) "flux"
          = fluxPipeline (getCol c1T1 "sap_flux")
       ∧ "sap_flux" ∈ (toSapLightcurve (.lightCurve c1T1)).colnames
       ∧ List.Sublist (getCol (toSapLightcurve (.lightCurve c1T1)) "sap_flux")
          (getCol c1T1 "sap_flux")) :=
  ⟨by decide, c1_sap_channel c1T1 (by decide)⟩

/-- C4 (amended): every fatal condition exits with non-zero status and
produces no plot; the usage error, identifier-not-found and
zero-observations conditions surface as a single human-readable line via
`sys.exit`; but a fatal stitching error propagates as an uncaught
exception (a multi-line traceback), not as a single-line message. -/
theorem c4_failure_exit_discipline (cfg : MainCfg) :
    (mainRun cfg ≠ .success →
        exitCodeOf (mainRun cfg) ≠ 0 ∧ plottedOf (mainRun cfg) = false)
    ∧ (cfg.argv.length ≠ 2 →
        mainRun cfg = .singleLineExit "Usage: python tess_gaia_ps.py <Gaia_ID>")
    ∧ (∀ m, cfg.argv.length = 2 → gaiaToTic cfg.queryRows = .error m →
        mainRun cfg = .singleLineExit m)
    ∧ (∀ tic, cfg.argv.length = 2 → gaiaToTic cfg.queryRows = .ok tic →
        searchTessLc (cfg.search tic) = [] →
        mainRun cfg = .singleLineExit "This target has not been observed by TESS.")
    ∧ (∀ tic e, cfg.argv.length = 2 → gaiaToTic cfg.queryRows = .ok tic →
        searchTessLc (cfg.search tic) ≠ [] →
        (downloadAndStitch cfg.meta (searchTessLc (cfg.search tic))).2 = .error e →
        mainRun cfg = .uncaught e ∧ singleLineOf (mainRun cfg) = false
          ∧ exitCodeOf (mainRun cfg) = 1) := by
  refine ⟨?h1, ?h2, ?h3, ?h4, ?h5⟩
  · intro hne
    cases hm : mainRun cfg with
    | singleLineExit m => simp [exitCodeOf, plottedOf]
    | uncaught e => simp [exitCodeOf, plottedOf]
    | success => exact absurd hm hne
  · intro h2
    unfold mainRun
    rw [if_pos h2]
  · intro m h2 h3
    have hlen : ¬ cfg.argv.length ≠ 2 := fun hh => hh h2
    unfold mainRun
    rw [if_neg hlen]
    simp only [h3]
  · intro tic h2 h3 h4
    have hlen : ¬ cfg.argv.length ≠ 2 := fun hh => hh h2
    unfold mainRun
    rw [if_neg hlen]
    simp only [h3]
    rw [h4]
    simp
  · intro tic e h2 h3 h4 h5
    have hlen : ¬ cfg.argv.length ≠ 2 := fun hh => hh h2
    have hlen0 : ¬ (searchTessLc (cfg.search tic)).length = 0 := by
      intro hh
      exact h4 (List.length_eq_zero.mp hh)
    have hrun : mainRun cfg = .uncaught e := by
      unfold mainRun
      rw [if_neg hlen]
      simp only [h3]
      rw [if_neg hlen0]
      simp only [h5]
    exact ⟨hrun, by rw [hrun]; rfl, by rw [hrun]; rfl⟩

/-- Counterexample to C4 as stated: in the run `c4Cfg` the stitch
pipeline fails fatally, the process terminates abnormally (non-zero, no
plot), but the failure is an uncaught exception traceback, not a single
human-readable line. -/
theorem c4_failure_exit_discipline_counterexample : ¬ c4ClaimHolds c4Cfg := by
  unfold c4ClaimHolds
  decide

/-- Witness for the amended C4: the fatal-stitching conjunct at the
concrete run `c4Cfg`. -/
theorem c4_failure_exit_discipline_witness :
    c4Cfg.argv.length = 2
    ∧ gaiaToTic c4Cfg.queryRows = .ok 99
    ∧ searchTessLc (c4Cfg.search 99) ≠ []
    ∧ (downloadAndStitch c4Cfg.meta (searchTessLc (c4Cfg.search 99))).2
        = .error (.lk "bad")
    ∧ (mainRun c4Cfg = .uncaught (.lk "bad")
       ∧ singleLineOf (mainRun c4Cfg) = false
       ∧ exitCodeOf (mainRun c4Cfg) = 1) := by
  have hne : searchTessLc (c4Cfg.search 99) ≠ [] := by
    intro h
    exact List.cons_ne_nil c4BadBeh [] h
  exact ⟨rfl, rfl, hne, rfl,
    (c4_failure_exit_discipline c4Cfg).2.2.2.2 99 (.lk "bad") rfl rfl hne rfl⟩

end TGPS
